import Mathlib

/-!
Formal model of `salt/modules/dracr.py` (a wrapper around the Dell `racadm`
CLI tool) and proofs about its parsing, command-dispatch and user-management
logic.

The Python functions are shallowly embedded: strings are Lean `String`s,
Python `dict`s are insertion-ordered association lists (`updD` models
`d[k] = v`), the external command runner is an explicit oracle argument, and
Python operations that can raise are modelled with `Option` (`none` = the
call raises).  All Python string primitives used by the module
(`str.strip`, `str.rstrip`, `str.split`, `str.startswith`, `re.split`,
slicing) are re-implemented by structural recursion on the character list so
that every definition evaluates by `decide`.
-/

/-! ## Python string primitives -/

/-- Python `str.rstrip()` (default whitespace). -/
def pyRstrip (s : String) : String :=
  ⟨(s.data.reverse.dropWhile Char.isWhitespace).reverse⟩

/-- Python `str.lstrip()` (default whitespace). -/
def pyLstrip (s : String) : String :=
  ⟨s.data.dropWhile Char.isWhitespace⟩

/-- Python `str.strip()` (default whitespace). -/
def pyStrip (s : String) : String :=
  pyLstrip (pyRstrip s)

/-- Python `c in s` for a single character `c`. -/
def containsChar (s : String) (c : Char) : Bool :=
  s.data.contains c

/-- Python `s[:-1]`: drop the last character (empty string stays empty). -/
def pyDropLast (s : String) : String :=
  ⟨s.data.dropLast⟩

/-- Helper for `pySplitChar`, on character lists. -/
def splitCharList (c : Char) : List Char → List (List Char)
  | [] => [[]]
  | x :: xs =>
    match splitCharList c xs with
    | [] => [[]]
    | t :: ts => if x = c then [] :: t :: ts else (x :: t) :: ts

/-- Python `s.split(c)` for a one-character separator: splits at every
occurrence of `c`, keeping empty pieces. -/
def pySplitChar (s : String) (c : Char) : List String :=
  (splitCharList c s.data).map (fun cs => ⟨cs⟩)

/-- Python `s.startswith(p)`. -/
def pyStartsWith (s p : String) : Bool :=
  p.data.isPrefixOf s.data

/-! ## Python dict model

A Python `dict` is an insertion-ordered association list; `updD` is
`d[k] = v` (overwrite in place, else append), `hasKeyD` is `k in d`,
`getKeyD` is `d[k]` (which raises `KeyError` on a miss, hence `Option`). -/

/-- Python `d[k] = v` on an insertion-ordered dict. -/
def updD {β : Type} (m : List (String × β)) (k : String) (v : β) :
    List (String × β) :=
  if m.any (fun p => p.1 == k) then
    m.map (fun p => if p.1 == k then (k, v) else p)
  else m ++ [(k, v)]

/-- Python `k in d`. -/
def hasKeyD {β : Type} (m : List (String × β)) (k : String) : Bool :=
  m.any (fun p => p.1 == k)

/-- Python `d[k]`, `none` meaning the lookup raises `KeyError`. -/
def getKeyD {β : Type} (m : List (String × β)) (k : String) : Option β :=
  match m with
  | [] => none
  | p :: rest => if p.1 == k then some p.2 else getKeyD rest k

/-- Python `dict(pairs)`: insert the pairs left to right. -/
def dictOfPairs (ps : List (String × String)) : List (String × String) :=
  ps.foldl (fun m p => updD m p.1 p.2) []

/-! ## `set_permissions`: privilege bit-mask assembly (claim C1)

Source lines 578-606.  The `privileges` table is kept with its literal
hexadecimal string values; `parseHex` models Python `int(x, 16)`. -/

/-- The nine-entry privilege table of `set_permissions`. -/
def privileges : List (String × String) :=
  [("login", "0x0000001"),
   ("drac", "0x0000002"),
   ("user_management", "0x0000004"),
   ("clear_logs", "0x0000008"),
   ("server_control_commands", "0x0000010"),
   ("console_redirection", "0x0000020"),
   ("virtual_media", "0x0000040"),
   ("test_alerts", "0x0000080"),
   ("debug_commands", "0x0000100")]

/-- Value of one hexadecimal digit character. -/
def hexDigitVal (c : Char) : Nat :=
  if 48 ≤ c.toNat ∧ c.toNat ≤ 57 then c.toNat - 48
  else if 97 ≤ c.toNat ∧ c.toNat ≤ 102 then c.toNat - 87
  else if 65 ≤ c.toNat ∧ c.toNat ≤ 70 then c.toNat - 55
  else 0

/-- Python `int(s, 16)` on the well-formed inputs used here (an optional
`0x` prefix followed by hex digits). -/
def parseHex (s : String) : Nat :=
  let ds := if s.data.take 2 = ['0', 'x'] then s.data.drop 2 else s.data
  ds.foldl (fun acc c => acc * 16 + hexDigitVal c) 0

/-- The body of the mask-assembly loop of `set_permissions`, acting on the
already-split list of comma-separated pieces:
`for i in permissions.split(','): perm = i.strip();
 if perm in privileges: permission += int(privileges[perm], 16)`. -/
def maskOfParts (parts : List String) : Nat :=
  parts.foldl
    (fun acc i =>
      let perm := pyStrip i
      match getKeyD privileges perm with
      | some v => acc + parseHex v
      | none => acc) 0

/-- The assembled privilege mask of `set_permissions` for a raw
permission string. -/
def permMask (permissions : String) : Nat :=
  maskOfParts (pySplitChar permissions ',')

/-- One uppercase hexadecimal digit (Python `X` format). -/
def hexDigitUpper (n : Nat) : Char :=
  Char.ofNat (if n < 10 then 48 + n else 55 + n)

/-- Fuel-driven hexadecimal digit expansion (most significant first). -/
def hexDigitsAux : Nat → Nat → List Char → List Char
  | 0, _, acc => acc
  | fuel + 1, n, acc =>
    if n < 16 then hexDigitUpper n :: acc
    else hexDigitsAux fuel (n / 16) (hexDigitUpper (n % 16) :: acc)

/-- Uppercase hexadecimal digits of `n`. -/
def hexDigits (n : Nat) : List Char :=
  hexDigitsAux (n + 1) n []

/-- Python `'{:08X}'.format n`: uppercase hex, left-padded with zeros to at
least eight digits. -/
def fmt08X (n : Nat) : String :=
  let ds := hexDigits n
  ⟨List.replicate (8 - ds.length) '0' ++ ds⟩

/-- The rendered mask argument `0x{permission:08X}` of `set_permissions`. -/
def permArg (permissions : String) : String :=
  "0x" ++ fmt08X (permMask permissions)

/-- The full `racadm` argument string built by `set_permissions`
(source lines 602-606). -/
def setPermissionsCmd (uid : Nat) (permissions : String) : String :=
  s!"config -g cfgUserAdmin -o cfgUserAdminPrivilege -i {uid} 0x{fmt08X (permMask permissions)}"

/-- Contribution of one comma-separated piece to the mask. -/
def maskContrib (i : String) : Nat :=
  match getKeyD privileges (pyStrip i) with
  | some v => parseHex v
  | none => 0

theorem maskOfParts_foldl (parts : List String) (a : Nat) :
    parts.foldl
      (fun acc i =>
        match getKeyD privileges (pyStrip i) with
        | some v => acc + parseHex v
        | none => acc) a = a + (parts.map maskContrib).sum := by
  induction parts generalizing a with
  | nil => simp
  | cons x xs ih =>
    have hx : (match getKeyD privileges (pyStrip x) with
        | some v => a + parseHex v
        | none => a) = a + maskContrib x := by
      unfold maskContrib
      rcases h : getKeyD privileges (pyStrip x) with _ | v <;> simp [h]
    rw [List.foldl_cons]
    rw [show (List.foldl
        (fun acc i =>
          match getKeyD privileges (pyStrip i) with
          | some v => acc + parseHex v
          | none => acc)
        (match getKeyD privileges (pyStrip x) with
         | some v => a + parseHex v
         | none => a) xs) = List.foldl
        (fun acc i =>
          match getKeyD privileges (pyStrip i) with
          | some v => acc + parseHex v
          | none => acc)
        (a + maskContrib x) xs from by rw [hx]]
    rw [ih, List.map_cons, List.sum_cons]
    omega

theorem maskOfParts_eq_sum (parts : List String) :
    maskOfParts parts = (parts.map maskContrib).sum := by
  unfold maskOfParts
  have h := maskOfParts_foldl parts 0
  simpa using h

/-- C1 (counterexample): the assembled privilege mask is NOT invariant under
duplicate flags: the loop of `set_permissions` adds (`permission += ...`) the
value of every occurrence, so `"drac,login,login"` renders as `0x00000004`
(2 + 1 + 1), not `0x00000003` as the claim states. -/
theorem set_permissions_duplicate_flag_changes_mask :
    permArg "login,drac" = "0x00000003" ∧
      permArg "drac,login,login" = "0x00000004" := by
  decide

/-- C1 (amended): the assembled privilege mask depends only on the multiset
of recognized flag names: reordering the comma-separated flags never changes
the rendered argument, but repeating a flag adds its value again; in
particular `"login,drac"` yields `0x00000003` while `"drac,login,login"`
yields `0x00000004`. -/
theorem set_permissions_mask_reorder_invariant (p q : String)
    (h : (pySplitChar p ',').Perm (pySplitChar q ',')) :
    permMask p = permMask q ∧
      permArg "login,drac" = "0x00000003" ∧
      permArg "drac,login,login" = "0x00000004" := by
  refine ⟨?_, by decide, by decide⟩
  unfold permMask
  rw [maskOfParts_eq_sum, maskOfParts_eq_sum]
  exact (h.map maskContrib).sum_eq

/-- C1 (witness): the reorder-invariance applied to the two concrete
permission strings `"login,drac"` and `"drac,login"`. -/
theorem set_permissions_mask_reorder_invariant_witness :
    permMask "login,drac" = permMask "drac,login" :=
  (set_permissions_mask_reorder_invariant "login,drac" "drac,login"
    (List.Perm.swap "drac" "login" [])).1

/-! ## `create_user`: new-user index allocation (claim C2)

Source line 521:
`uid = sorted(list(set(range(2, 12)) - _uids), reverse=True).pop()`.
Python's `sorted(..., reverse=True)` is modelled by an insertion sort into
descending order (the free indices are pairwise distinct, so any descending
sort produces the same list); `.pop()` removes and returns the LAST element
of that list, i.e. `getLast?` (`none` = `pop` on an empty list raises). -/

/-- Insert `x` into a descending-sorted list, keeping it descending. -/
def insertDesc (x : Nat) : List Nat → List Nat
  | [] => [x]
  | y :: ys => if x ≥ y then x :: y :: ys else y :: insertDesc x ys

/-- Python `sorted(l, reverse=True)` for distinct naturals. -/
def sortDesc (l : List Nat) : List Nat :=
  l.foldr insertDesc []

/-- The free-index band `set(range(2, 12)) - _uids` of `create_user`. -/
def freeUids (used : List Nat) : List Nat :=
  (List.range' 2 10).filter (fun i => decide (i ∉ used))

/-- The uid picked by `create_user`:
`sorted(list(set(range(2, 12)) - _uids), reverse=True).pop()`. -/
def allocUid (used : List Nat) : Option Nat :=
  (sortDesc (freeUids used)).getLast?

theorem insertDesc_perm (x : Nat) (l : List Nat) :
    (insertDesc x l).Perm (x :: l) := by
  induction l with
  | nil => simp [insertDesc]
  | cons y ys ih =>
    by_cases h : x ≥ y
    · simp [insertDesc, h]
    · simp only [insertDesc, if_neg h]
      exact (ih.cons y).trans (List.Perm.swap x y ys)

theorem insertDesc_sorted (x : Nat) (l : List Nat)
    (h : l.Pairwise (· ≥ ·)) : (insertDesc x l).Pairwise (· ≥ ·) := by
  induction l with
  | nil => simp [insertDesc]
  | cons y ys ih =>
    rcases List.pairwise_cons.mp h with ⟨hy, hys⟩
    by_cases hxy : x ≥ y
    · simp only [insertDesc, if_pos hxy]
      refine List.pairwise_cons.mpr ⟨?_, h⟩
      intro z hz
      rcases List.mem_cons.mp hz with rfl | hz
      · exact hxy
      · exact le_trans (hy z hz) hxy
    · simp only [insertDesc, if_neg hxy]
      refine List.pairwise_cons.mpr ⟨?_, ih hys⟩
      intro z hz
      have hz2 := (insertDesc_perm x ys).mem_iff.mp hz
      rcases List.mem_cons.mp hz2 with rfl | hz2
      · omega
      · exact hy z hz2

theorem sortDesc_perm (l : List Nat) : (sortDesc l).Perm l := by
  induction l with
  | nil => simp [sortDesc]
  | cons x xs ih =>
    exact (insertDesc_perm x (sortDesc xs)).trans (ih.cons x)

theorem sortDesc_sorted (l : List Nat) :
    (sortDesc l).Pairwise (· ≥ ·) := by
  induction l with
  | nil => simp [sortDesc]
  | cons x xs ih => exact insertDesc_sorted x (sortDesc xs) ih

theorem getLast?_sorted_min (l : List Nat) (m : Nat)
    (hs : l.Pairwise (· ≥ ·)) (hl : l.getLast? = some m) :
    m ∈ l ∧ ∀ x ∈ l, m ≤ x := by
  induction l with
  | nil => simp at hl
  | cons y ys ih =>
    rcases List.pairwise_cons.mp hs with ⟨hy, hys⟩
    cases ys with
    | nil =>
      simp only [List.getLast?, Option.some.injEq] at hl
      subst hl
      simp
    | cons z zs =>
      rw [List.getLast?_cons_cons] at hl
      rcases ih hys hl with ⟨hm, hmin⟩
      refine ⟨List.mem_cons_of_mem y hm, ?_⟩
      intro x hx
      rcases List.mem_cons.mp hx with rfl | hx
      · have hz : z ∈ z :: zs := List.mem_cons_self z zs
        exact le_trans (hmin z hz) (hy z hz)
      · exact hmin x hx

/-- C2: `create_user` allocates the new user's index by scanning the band
2..11, excluding indices already in use, and picking the lowest free index;
whenever a free index exists the allocation succeeds, and the allocated
index is a free band index below every other free band index.  (With
existing indices `{2,3,5}` this gives `4`; see the witness.) -/
theorem create_user_allocates_lowest_free_uid (used : List Nat) :
    (∀ u, allocUid used = some u →
      (2 ≤ u ∧ u ≤ 11 ∧ u ∉ used) ∧
        ∀ v, 2 ≤ v → v ≤ 11 → v ∉ used → u ≤ v) ∧
    ((∃ v, 2 ≤ v ∧ v ≤ 11 ∧ v ∉ used) → (allocUid used).isSome) := by
  have hlist : List.range' 2 10 = [2, 3, 4, 5, 6, 7, 8, 9, 10, 11] := rfl
  have hchar : ∀ w, w ∈ freeUids used ↔ (2 ≤ w ∧ w ≤ 11 ∧ w ∉ used) := by
    intro w
    unfold freeUids
    rw [hlist]
    simp only [List.mem_filter, List.mem_cons, List.not_mem_nil, or_false,
      decide_eq_true_eq]
    constructor
    · rintro ⟨hw, hnu⟩
      exact ⟨by omega, by omega, hnu⟩
    · rintro ⟨h1, h2, h3⟩
      exact ⟨by omega, h3⟩
  constructor
  · intro u hu
    have hperm := sortDesc_perm (freeUids used)
    have hsorted := sortDesc_sorted (freeUids used)
    rcases getLast?_sorted_min _ u hsorted hu with ⟨hmem, hmin⟩
    have hmem2 : u ∈ freeUids used := hperm.mem_iff.mp hmem
    refine ⟨(hchar u).mp hmem2, ?_⟩
    intro v h1 h2 h3
    exact hmin v (hperm.mem_iff.mpr ((hchar v).mpr ⟨h1, h2, h3⟩))
  · rintro ⟨v, h1, h2, h3⟩
    have hvmem : v ∈ freeUids used := (hchar v).mpr ⟨h1, h2, h3⟩
    have hne : sortDesc (freeUids used) ≠ [] := by
      intro h
      have hv2 := (sortDesc_perm (freeUids used)).mem_iff.mpr hvmem
      rw [h] at hv2
      simp at hv2
    unfold allocUid
    rw [List.getLast?_isSome]
    exact hne

/-- C2 (witness): with existing indices `{2,3,5}` the allocated index is `4`,
and `4` is the lowest free index of the band. -/
theorem create_user_allocates_lowest_free_uid_witness :
    (2 ≤ 4 ∧ 4 ≤ 11 ∧ 4 ∉ [2, 3, 5]) ∧
      ∀ v, 2 ≤ v → v ≤ 11 → v ∉ ([2, 3, 5] : List Nat) → 4 ≤ v :=
  (create_user_allocates_lowest_free_uid [2, 3, 5]).1 4 (by decide)

/-! ## `__execute_cmd`: the boolean-variant command dispatcher (claim C3)

Source lines 53-87.  The host automation framework's command runner
`__salt__['cmd.run_all']` is an explicit oracle `run : String → CmdResult`.
Python truthiness of the `host` argument (`None` and `''` are falsy) is
modelled by `strTruthy`; formatting `None` into a command string renders the
text `None`, modelled by `fmtOpt`. -/

/-- The result record of the external command runner (`retcode`/`stdout`). -/
structure CmdResult where
  retcode : Int
  stdout : String

/-- Python truthiness of an optional string argument. -/
def strTruthy : Option String → Bool
  | none => false
  | some s => s != ""

/-- Python `'{0}'.format(x)` where `x` may be `None`. -/
def fmtOpt : Option String → String
  | none => "None"
  | some s => s

/-- ASCII `str.lower()` (the module only lowercases `SERVER`/`SWITCH`). -/
def asciiLower (s : String) : String :=
  ⟨s.data.map (fun c =>
    if 65 ≤ c.toNat ∧ c.toNat ≤ 90 then Char.ofNat (c.toNat + 32) else c)⟩

/-- Python `module[module.index('_') + 1:]` for a string containing `'_'`. -/
def afterUnderscore (s : String) : String :=
  ⟨(s.data.dropWhile (fun c => c != '_')).tail⟩

/-- The `-a`/`-m` module switch built by `__execute_cmd`
(source lines 59-69). -/
def modswitchOf : Option String → String
  | some m =>
    if pyStartsWith m "ALL_" then "-a " ++ asciiLower (afterUnderscore m)
    else s!"-m {m}"
  | none => ""

/-- The full command line handed to the runner by `__execute_cmd`
(source lines 70-80). -/
def builtCmd (command : String)
    (host? adminUser? adminPass? module? : Option String) : String :=
  let modswitch := modswitchOf module?
  if !strTruthy host? then s!"racadm {command} {modswitch}"
  else
    s!"racadm -r {fmtOpt host?} -u {fmtOpt adminUser?} -p {fmtOpt adminPass?} {command} {modswitch}"

/-- Function `__execute_cmd` (source lines 53-87): run the command, return `False`
on a nonzero exit code and `True` otherwise. -/
def execute_cmd (run : String → CmdResult) (command : String)
    (host? adminUser? adminPass? module? : Option String) : Bool :=
  let cmd := run (builtCmd command host? adminUser? adminPass? module?)
  if cmd.retcode != 0 then false else true

/-- Function `server_reboot` (source lines 648-680). -/
def server_reboot (run : String → CmdResult)
    (host? adminUser? adminPass? module? : Option String) : Bool :=
  execute_cmd run "serveraction powercycle" host? adminUser? adminPass?
    module?

/-- Function `set_snmp` (source lines 609-625). -/
def set_snmp (run : String → CmdResult) (community : String)
    (host? adminUser? adminPass? : Option String) : Bool :=
  execute_cmd run
    s!"config -g cfgOobSnmp -o cfgOobSnmpAgentCommunity {community}"
    host? adminUser? adminPass? none

/-- Function `set_chassis_name` (source lines 955-984). -/
def set_chassis_name (run : String → CmdResult) (name : String)
    (host? adminUser? adminPass? : Option String) : Bool :=
  execute_cmd run s!"setsysinfo -c chassisname {name}"
    host? adminUser? adminPass? none

/-- C3: `__execute_cmd` returns `True` exactly when the subprocess exit code
is zero and returns the boolean `False` (it is a total function, so it never
raises) whenever the exit code is nonzero, and the mutating wrappers
`server_reboot`, `set_snmp` and `set_chassis_name` pass that boolean through
unchanged. -/
theorem execute_cmd_true_iff_zero_exit (run : String → CmdResult)
    (command community name : String)
    (host? adminUser? adminPass? module? : Option String) :
    (execute_cmd run command host? adminUser? adminPass? module? = true ↔
      (run (builtCmd command host? adminUser? adminPass? module?)).retcode
        = 0) ∧
    (execute_cmd run command host? adminUser? adminPass? module? = false ↔
      (run (builtCmd command host? adminUser? adminPass? module?)).retcode
        ≠ 0) ∧
    server_reboot run host? adminUser? adminPass? module? =
      execute_cmd run "serveraction powercycle" host? adminUser? adminPass?
        module? ∧
    set_snmp run community host? adminUser? adminPass? =
      execute_cmd run
        s!"config -g cfgOobSnmp -o cfgOobSnmpAgentCommunity {community}"
        host? adminUser? adminPass? none ∧
    set_chassis_name run name host? adminUser? adminPass? =
      execute_cmd run s!"setsysinfo -c chassisname {name}"
        host? adminUser? adminPass? none := by
  refine ⟨?_, ?_, rfl, rfl, rfl⟩ <;>
    · unfold execute_cmd
      by_cases h :
        (run (builtCmd command host? adminUser? adminPass? module?)).retcode
          = 0 <;> simp [h]

/-! ## `__parse_drac`: the key=value section parser (claims C4, C10)

Source lines 32-50.  The outer dict maps section names to inner key/value
dicts.  The line `drac[section].update(dict([[prop.strip() for prop in
i.split('=')]]))` raises `ValueError` when `i.split('=')` does not have
exactly two pieces, so the parser returns `Option` (`none` = it raises). -/

/-- Python `len` of a string. -/
def pyLen (s : String) : Nat :=
  s.data.length

abbrev DracDict := List (String × List (String × String))

/-- Lookup `drac[section]` with the guarantee (at every use site) that the key is
present; `.getD []` is never exercised under `hasKeyD`. -/
def sectMap (d : DracDict) (s : String) : List (String × String) :=
  (getKeyD d s).getD []

/-- The `__parse_drac` loop body (source lines 39-48), one line at a time,
carrying the current dict and current section name. -/
def parse_drac_go : List String → DracDict → String → Option DracDict
  | [], drac, _ => some drac
  | i :: rest, drac, sect =>
    if 0 < pyLen (pyRstrip i) ∧ containsChar i '=' = true then
      if hasKeyD drac sect = true then
        match (pySplitChar i '=').map pyStrip with
        | [k, v] =>
          parse_drac_go rest (updD drac sect (updD (sectMap drac sect) k v))
            sect
        | _ => none
      else parse_drac_go rest drac sect
    else
      let sect2 := pyDropLast (pyStrip i)
      if hasKeyD drac sect2 = false ∧ sect2 ≠ "" then
        parse_drac_go rest (updD drac sect2 []) sect2
      else parse_drac_go rest drac sect2

/-- Function `__parse_drac` (source lines 32-50) on the split output lines. -/
def parse_drac (lines : List String) : Option DracDict :=
  parse_drac_go lines [] ""

/-- Strip one trailing colon if present (the spec's "named by stripping its
trailing colon"). -/
def stripTrailingColon (s : String) : String :=
  if s.data.getLast? = some ':' then pyDropLast s else s

/-- Reference reconstruction following the spec's words (claim C4): each
non-blank line containing `=` adds a whitespace-trimmed key/value pair to
the current section, any other non-blank line starts a new section named by
stripping its trailing colon, lines before any declared section are
dropped, and a later duplicate key overwrites the earlier value. -/
def ref_parse_drac_go : List String → DracDict → Option String → DracDict
  | [], d, _ => d
  | i :: rest, d, cur =>
    if pyStrip i = "" then ref_parse_drac_go rest d cur
    else if containsChar i '=' = true then
      match cur with
      | none => ref_parse_drac_go rest d cur
      | some s =>
        match (pySplitChar i '=').map pyStrip with
        | [k, v] => ref_parse_drac_go rest (updD d s (updD (sectMap d s) k v)) cur
        | _ => ref_parse_drac_go rest d cur
    else
      let name := stripTrailingColon (pyStrip i)
      ref_parse_drac_go rest (if hasKeyD d name = true then d else updD d name [])
        (some name)

/-- Reference reconstruction following the spec's words (claim C4). -/
def ref_parse_drac (lines : List String) : DracDict :=
  ref_parse_drac_go lines [] none

/-- A well-formed key=value sectioned input line: either a key=value line
(exactly one `=`), or a section header (no `=`, a trailing colon, and a
nonempty name). -/
def wfLineB (i : String) : Bool :=
  (containsChar i '=' && (pySplitChar i '=').length == 2) ||
  (!containsChar i '=' && ((pyStrip i).data.getLast? == some ':') &&
    pyDropLast (pyStrip i) != "")

/-- A well-formed key=value sectioned input (claim C4). -/
abbrev WellFormedInput (lines : List String) : Prop :=
  ∀ i ∈ lines, wfLineB i = true

theorem mem_dropWhile_of_neg {α : Type} (p : α → Bool) (l : List α) (x : α)
    (hx : x ∈ l) (hpx : p x = false) : x ∈ l.dropWhile p := by
  induction l with
  | nil => simp at hx
  | cons y ys ih =>
    cases hpy : p y with
    | false =>
      rw [List.dropWhile_cons]
      simp only [hpy]
      simpa using hx
    | true =>
      rw [List.dropWhile_cons]
      simp only [hpy, if_true]
      rcases List.mem_cons.mp hx with rfl | hx2
      · rw [hpy] at hpx
        exact absurd hpx (by simp)
      · exact ih hx2

theorem mem_pyRstrip (s : String) (c : Char) (hc : c ∈ s.data)
    (hws : c.isWhitespace = false) : c ∈ (pyRstrip s).data := by
  unfold pyRstrip
  rw [List.mem_reverse]
  exact mem_dropWhile_of_neg _ _ _ (List.mem_reverse.mpr hc) hws

theorem mem_pyStrip (s : String) (c : Char) (hc : c ∈ s.data)
    (hws : c.isWhitespace = false) : c ∈ (pyStrip s).data := by
  unfold pyStrip pyLstrip
  exact mem_dropWhile_of_neg _ _ _ (mem_pyRstrip s c hc hws) hws

theorem contains_mem (s : String) (c : Char)
    (hc : containsChar s c = true) : c ∈ s.data := by
  unfold containsChar at hc
  simpa using hc

theorem pyRstrip_pos_of_contains (s : String)
    (hc : containsChar s '=' = true) : 0 < pyLen (pyRstrip s) := by
  have hm := mem_pyRstrip s '=' (contains_mem s '=' hc) (by decide)
  unfold pyLen
  exact List.length_pos.mpr (List.ne_nil_of_mem hm)

theorem pyStrip_ne_of_contains (s : String)
    (hc : containsChar s '=' = true) : pyStrip s ≠ "" := by
  intro h
  have hm := mem_pyStrip s '=' (contains_mem s '=' hc) (by decide)
  rw [h] at hm
  simp at hm

theorem hasKeyD_iff {β : Type} (m : List (String × β)) (k : String) :
    hasKeyD m k = true ↔ ∃ p ∈ m, p.1 = k := by
  unfold hasKeyD
  simp [List.any_eq_true]

theorem hasKeyD_updD_self {β : Type} (m : List (String × β)) (k : String)
    (v : β) : hasKeyD (updD m k v) k = true := by
  rw [hasKeyD_iff]
  unfold updD
  by_cases h : m.any (fun p => p.1 == k) = true
  · rw [if_pos h]
    rcases List.any_eq_true.mp h with ⟨q, hq, hq2⟩
    refine ⟨(k, v), ?_, rfl⟩
    rw [List.mem_map]
    exact ⟨q, hq, by simp [hq2]⟩
  · rw [if_neg h]
    exact ⟨(k, v), by simp, rfl⟩

/-- The state relation between the source parser and the reference
reconstruction: either nothing has been declared yet (`section` is the
initial empty string, which is never a dict key), or the current section is
declared and present in the dict. -/
def dracInv (drac : DracDict) (sect : String) (cur : Option String) : Prop :=
  (sect = "" ∧ cur = none ∧ hasKeyD drac "" = false) ∨
  (cur = some sect ∧ hasKeyD drac sect = true)

theorem length_two_shape {α : Type} (l : List α) (h : l.length = 2) :
    ∃ a b, l = [a, b] := by
  match l with
  | [a, b] => exact ⟨a, b, rfl⟩
  | [] => simp at h
  | [a] => simp at h
  | a :: b :: c :: t => simp at h

theorem parse_drac_go_eq_ref (lines : List String) :
    ∀ drac sect cur, WellFormedInput lines → dracInv drac sect cur →
    parse_drac_go lines drac sect = some (ref_parse_drac_go lines drac cur) := by
  induction lines with
  | nil =>
    intro drac sect cur hwf hinv
    rfl
  | cons i rest ih =>
    intro drac sect cur hwf hinv
    have hwi : wfLineB i = true := hwf i (List.mem_cons_self i rest)
    have hwrest : WellFormedInput rest :=
      fun j hj => hwf j (List.mem_cons_of_mem i hj)
    simp only [wfLineB, Bool.or_eq_true, Bool.and_eq_true, beq_iff_eq,
      bne_iff_ne, Bool.not_eq_true'] at hwi
    rcases hwi with ⟨hc, hlen⟩ | ⟨⟨hc, hcolon⟩, hname⟩
    · -- key=value line with exactly one '='
      have hr : 0 < pyLen (pyRstrip i) := pyRstrip_pos_of_contains i hc
      have hs : pyStrip i ≠ "" := pyStrip_ne_of_contains i hc
      rcases length_two_shape _ hlen with ⟨a, b, hab⟩
      simp only [parse_drac_go, ref_parse_drac_go, if_pos (And.intro hr hc),
        if_neg hs, if_pos hc, hab, List.map_cons, List.map_nil]
      rcases hinv with ⟨hsect, hcur, hkey⟩ | ⟨hcur, hkey⟩
      · subst hsect
        subst hcur
        rw [if_neg (show ¬hasKeyD drac "" = true by simp [hkey])]
        exact ih drac "" none hwrest (Or.inl ⟨rfl, rfl, hkey⟩)
      · subst hcur
        rw [if_pos hkey]
        exact ih _ sect (some sect) hwrest
          (Or.inr ⟨rfl, hasKeyD_updD_self _ _ _⟩)
    · -- section header line
      have hs : pyStrip i ≠ "" := by
        intro h
        rw [h] at hname
        exact hname rfl
      have hcond : ¬(0 < pyLen (pyRstrip i) ∧ containsChar i '=' = true) := by
        rintro ⟨-, h2⟩
        rw [hc] at h2
        exact Bool.false_ne_true h2
      have hcolon2 : stripTrailingColon (pyStrip i) = pyDropLast (pyStrip i) := by
        unfold stripTrailingColon
        rw [if_pos hcolon]
      have hc3 : ¬containsChar i '=' = true := by simp [hc]
      simp only [parse_drac_go, ref_parse_drac_go, if_neg hcond, if_neg hs,
        if_neg hc3, hcolon2]
      by_cases hk : hasKeyD drac (pyDropLast (pyStrip i)) = true
      · rw [if_neg (show ¬(hasKeyD drac (pyDropLast (pyStrip i)) = false ∧
            pyDropLast (pyStrip i) ≠ "") by
              rintro ⟨h1, -⟩
              rw [hk] at h1
              exact Bool.noConfusion h1),
          if_pos hk]
        exact ih drac _ _ hwrest (Or.inr ⟨rfl, hk⟩)
      · have hk2 : hasKeyD drac (pyDropLast (pyStrip i)) = false := by
          cases h2 : hasKeyD drac (pyDropLast (pyStrip i))
          · rfl
          · exact absurd h2 hk
        rw [if_pos ⟨hk2, hname⟩, if_neg hk]
        exact ih _ _ _ hwrest (Or.inr ⟨rfl, hasKeyD_updD_self _ _ _⟩)

/-- C4: on every well-formed key=value sectioned input, `__parse_drac`
terminates normally and its per-section mapping equals the direct
line-by-line reference reconstruction built from the spec's words (trimmed
pairs into the current section, new sections by stripping the trailing
colon, lines before any declared section dropped, later duplicate keys
overwriting earlier ones). -/
theorem parse_drac_matches_reference (lines : List String)
    (h : WellFormedInput lines) :
    parse_drac lines = some (ref_parse_drac lines) :=
  parse_drac_go_eq_ref lines [] "" none h (Or.inl ⟨rfl, rfl, rfl⟩)

/-- C4 (witness): the equivalence evaluated on a concrete five-line listing
exercising a duplicate key (`Model`) and two sections. -/
theorem parse_drac_matches_reference_witness :
    WellFormedInput ["System Information:", "Model = R720", "Model = R730",
      "Chassis Information:", "Chassis Name=MyChassis"] ∧
    parse_drac ["System Information:", "Model = R720", "Model = R730",
      "Chassis Information:", "Chassis Name=MyChassis"] =
      some (ref_parse_drac ["System Information:", "Model = R720",
        "Model = R730", "Chassis Information:", "Chassis Name=MyChassis"]) :=
  ⟨by decide, parse_drac_matches_reference _ (by decide)⟩

/-- C10 (counterexample): the trailing clause of the claim ("the parser only
terminates normally on inputs where every `=`-bearing line contains exactly
one `=`") is false: a line with two `=` that lies BEFORE any declared
section is dropped by the `if section in drac` guard, so `__parse_drac`
terminates normally on `["a=b=c"]` even though that line splits into three
pieces. -/
theorem parse_drac_multi_equals_before_section_ok :
    parse_drac ["a=b=c"] = some [] ∧
      (pySplitChar "a=b=c" '=').length = 3 := by
  decide

/-- C10 (amended): `__parse_drac` is not total: a line containing `=` whose
split has more than two pieces makes the dict construction raise
(`none`) exactly when the current section is already declared; when the
current section is not in the dict such a line is silently dropped and
parsing continues. -/
theorem parse_drac_multi_equals_line (i : String) (rest : List String)
    (drac : DracDict) (sect : String)
    (hc : containsChar i '=' = true)
    (hl : (pySplitChar i '=').length ≠ 2) :
    (hasKeyD drac sect = true → parse_drac_go (i :: rest) drac sect = none) ∧
    (hasKeyD drac sect = false →
      parse_drac_go (i :: rest) drac sect = parse_drac_go rest drac sect) := by
  have hr : 0 < pyLen (pyRstrip i) := pyRstrip_pos_of_contains i hc
  have hlen2 : ((pySplitChar i '=').map pyStrip).length ≠ 2 := by
    rw [List.length_map]
    exact hl
  constructor
  · intro hk
    simp only [parse_drac_go, if_pos (And.intro hr hc), if_pos hk]
    rcases hsh : (pySplitChar i '=').map pyStrip with _ | ⟨a, tl⟩
    · rfl
    · rcases tl with _ | ⟨b, tl2⟩
      · rfl
      · rcases tl2 with _ | ⟨c, tl3⟩
        · exact absurd (by rw [hsh]; rfl) hlen2
        · rfl
  · intro hk
    simp only [parse_drac_go, if_pos (And.intro hr hc)]
    rw [if_neg (show ¬hasKeyD drac sect = true by simp [hk])]

/-- C10 (witness): on the line `a=b=c` inside the already-declared section
`A`, the parser faults. -/
theorem parse_drac_multi_equals_line_witness :
    parse_drac_go ["a=b=c"] [("A", [])] "A" = none :=
  (parse_drac_multi_equals_line "a=b=c" [] [("A", [])] "A"
    (by decide) (by decide)).1 (by decide)

/-! ## `inventory`: the tagged-block parser (claim C5)

Source lines 1013-1091.  `re.split('  +', s)` (split on runs of two or more
spaces) is implemented by the one-pass scanner `split2Go`; the four
mutually-exclusive `in_server`/`in_switch`/`in_cmc`/`in_chassis` booleans
(at most one is ever set) are modelled by an `Option BlockKind` state. -/

abbrev PyDict := List (String × String)

/-- One pass of `re.split('  +', s)`: `cur` is the reversed current token,
`nsp` counts pending spaces not yet classified as separator or content. -/
def split2Go : List Char → List Char → Nat → List (List Char)
  | [], cur, nsp =>
    if 2 ≤ nsp then [cur.reverse, []]
    else [(List.replicate nsp ' ' ++ cur).reverse]
  | c :: rest, cur, nsp =>
    if c = ' ' then split2Go rest cur (nsp + 1)
    else if 2 ≤ nsp then cur.reverse :: split2Go rest [c] 0
    else split2Go rest (c :: List.replicate nsp ' ' ++ cur) 0

/-- Python `re.split('  +', s)`. -/
def reSplit2 (s : String) : List String :=
  (split2Go s.data [] 0).map (fun cs => ⟨cs⟩)

/-- The four block kinds of the `getversion` inventory listing. -/
inductive BlockKind
  | server
  | switch
  | cmc
  | chassis

/-- The per-block field-name lists (source lines 1017-1022). -/
def inventoryFields : BlockKind → List String
  | .server => ["name", "idrac_version", "blade_type", "gen", "updateable"]
  | .switch => ["name", "model_name", "hw_version", "fw_version"]
  | .cmc => ["name", "cmc_version", "updateable"]
  | .chassis => ["name", "fw_version", "fqdd"]

/-- The result mapping of `inventory`: one dict per block kind. -/
structure InvResult where
  server : List (String × PyDict)
  switch : List (String × PyDict)
  cmc : List (String × PyDict)
  chassis : List (String × PyDict)

/-- The dict of one block kind in an `InvResult`. -/
def invBlock (r : InvResult) : BlockKind → List (String × PyDict)
  | .server => r.server
  | .switch => r.switch
  | .cmc => r.cmc
  | .chassis => r.chassis

/-- The insertion `ret[<block>][line[0]] = record`. -/
def invInsert (r : InvResult) (b : BlockKind) (k : String) (rec : PyDict) :
    InvResult :=
  match b with
  | .server => { r with server := updD r.server k rec }
  | .switch => { r with switch := updD r.switch k rec }
  | .cmc => { r with cmc := updD r.cmc k rec }
  | .chassis => { r with chassis := updD r.chassis k rec }

/-- The record built from one data line:
`dict((k, v) for d in map(mapit, fields[b], line) for (k, v) in d.items())`
zips the block's field names against the parsed fields; `map` over two
sequences stops at the shorter one. -/
def invRecord (b : BlockKind) (line : List String) : PyDict :=
  dictOfPairs ((inventoryFields b).zip line)

/-- The line loop of `inventory` (source lines 1040-1089). -/
def inventoryGo : List String → Option BlockKind → InvResult → InvResult
  | [], _, acc => acc
  | l :: rest, blk, acc =>
    if pyStartsWith l "<Server>" = true then
      inventoryGo rest (some .server) acc
    else if pyStartsWith l "<Switch>" = true then
      inventoryGo rest (some .switch) acc
    else if pyStartsWith l "<CMC>" = true then
      inventoryGo rest (some .cmc) acc
    else if pyStartsWith l "<Chassis Infrastructure>" = true then
      inventoryGo rest (some .chassis) acc
    else if pyLen l < 1 then inventoryGo rest blk acc
    else
      let line := reSplit2 (pyStrip l)
      match blk with
      | none => inventoryGo rest none acc
      | some b => inventoryGo rest blk
          (invInsert acc b line.headI (invRecord b line))

/-- Function `inventory` (source lines 1013-1091) on the cleaned output lines. -/
def inventory (lines : List String) : InvResult :=
  inventoryGo lines none ⟨[], [], [], []⟩

theorem mem_updD {β : Type} (m : List (String × β)) (k : String) (v : β)
    (p : String × β) (hp : p ∈ updD m k v) : p ∈ m ∨ p = (k, v) := by
  unfold updD at hp
  by_cases h : m.any (fun q => q.1 == k) = true
  · rw [if_pos h] at hp
    rcases List.mem_map.mp hp with ⟨q, hq, hq2⟩
    by_cases h3 : (q.1 == k) = true
    · right
      rw [← hq2]
      simp [h3]
    · left
      rw [← hq2]
      simp only [h3, if_false]
      exact hq
  · rw [if_neg h] at hp
    rcases List.mem_append.mp hp with h1 | h1
    · left
      exact h1
    · right
      simpa using h1

theorem length_updD {β : Type} (m : List (String × β)) (k : String) (v : β) :
    (updD m k v).length ≤ m.length + 1 := by
  unfold updD
  by_cases h : m.any (fun q => q.1 == k) = true
  · rw [if_pos h, List.length_map]
    omega
  · rw [if_neg h, List.length_append]
    simp

theorem length_foldl_updD (ps : List (String × String)) :
    ∀ acc : PyDict,
      (ps.foldl (fun m p => updD m p.1 p.2) acc).length ≤
        acc.length + ps.length := by
  induction ps with
  | nil =>
    intro acc
    simp
  | cons p pt ih =>
    intro acc
    rw [List.foldl_cons]
    have h1 := ih (updD acc p.1 p.2)
    have h2 := length_updD acc p.1 p.2
    simp only [List.length_cons]
    omega

theorem length_dictOfPairs (ps : List (String × String)) :
    (dictOfPairs ps).length ≤ ps.length := by
  have h := length_foldl_updD ps []
  simpa [dictOfPairs] using h

theorem length_invRecord (b : BlockKind) (line : List String) :
    (invRecord b line).length ≤ (inventoryFields b).length := by
  unfold invRecord
  have h1 := length_dictOfPairs ((inventoryFields b).zip line)
  have h2 : ((inventoryFields b).zip line).length ≤
      (inventoryFields b).length := by
    rw [List.length_zip]
    omega
  omega

theorem mem_invBlock_invInsert (acc : InvResult) (b2 b : BlockKind)
    (k0 : String) (r0 : PyDict) (k : String) (rec : PyDict)
    (h : (k, rec) ∈ invBlock (invInsert acc b2 k0 r0) b) :
    (k, rec) ∈ invBlock acc b ∨ ((k, rec) = (k0, r0) ∧ b = b2) := by
  cases b2 <;> cases b <;>
    simp only [invInsert, invBlock] at h ⊢ <;>
    first
      | (left; exact h)
      | (rcases mem_updD _ _ _ _ h with h1 | h1
         · exact Or.inl h1
         · exact Or.inr ⟨h1, by trivial⟩)

theorem inventoryGo_mem (lines : List String) :
    ∀ blk acc b k rec, (k, rec) ∈ invBlock (inventoryGo lines blk acc) b →
      (k, rec) ∈ invBlock acc b ∨
        (rec.length ≤ (inventoryFields b).length ∧
          ∃ l ∈ lines, k = (reSplit2 (pyStrip l)).headI) := by
  induction lines with
  | nil =>
    intro blk acc b k rec h
    left
    exact h
  | cons l rest ih =>
    intro blk acc b k rec h
    have step : ∀ blk2 acc2,
        (k, rec) ∈ invBlock (inventoryGo rest blk2 acc2) b →
        (k, rec) ∈ invBlock acc2 b ∨
          (rec.length ≤ (inventoryFields b).length ∧
            ∃ m ∈ l :: rest, k = (reSplit2 (pyStrip m)).headI) := by
      intro blk2 acc2 h2
      rcases ih blk2 acc2 b k rec h2 with h3 | ⟨h3, m, hm, hk⟩
      · left
        exact h3
      · right
        exact ⟨h3, m, List.mem_cons_of_mem l hm, hk⟩
    simp only [inventoryGo] at h
    by_cases h1 : pyStartsWith l "<Server>" = true
    · rw [if_pos h1] at h
      exact step _ _ h
    rw [if_neg h1] at h
    by_cases h2 : pyStartsWith l "<Switch>" = true
    · rw [if_pos h2] at h
      exact step _ _ h
    rw [if_neg h2] at h
    by_cases h3 : pyStartsWith l "<CMC>" = true
    · rw [if_pos h3] at h
      exact step _ _ h
    rw [if_neg h3] at h
    by_cases h4 : pyStartsWith l "<Chassis Infrastructure>" = true
    · rw [if_pos h4] at h
      exact step _ _ h
    rw [if_neg h4] at h
    by_cases h5 : pyLen l < 1
    · rw [if_pos h5] at h
      exact step _ _ h
    rw [if_neg h5] at h
    cases blk with
    | none => exact step _ _ h
    | some b2 =>
      rcases step _ _ h with h6 | h6
      · rcases mem_invBlock_invInsert acc b2 b _ _ k rec h6 with h7 | ⟨h7, hbb⟩
        · left
          exact h7
        · right
          subst hbb
          have hkk : k = (reSplit2 (pyStrip l)).headI := by
            have := congrArg Prod.fst h7
            simpa using this
          have hrr : rec = invRecord b (reSplit2 (pyStrip l)) := by
            have := congrArg Prod.snd h7
            simpa using this
          refine ⟨?_, l, List.mem_cons_self l rest, hkk⟩
          rw [hrr]
          exact length_invRecord b (reSplit2 (pyStrip l))
      · right
        exact h6

/-- C5: every record produced by `inventory` is keyed by its line's first
field (first piece of the two-or-more-space split of the stripped line) and
contains at most as many attributes as the active block's declared
field-name list: zipping field names against parsed fields stops at the
shorter sequence. -/
theorem inventory_record_keys_and_widths (lines : List String)
    (b : BlockKind) (k : String) (rec : PyDict)
    (h : (k, rec) ∈ invBlock (inventory lines) b) :
    rec.length ≤ (inventoryFields b).length ∧
      ∃ l ∈ lines, k = (reSplit2 (pyStrip l)).headI := by
  rcases inventoryGo_mem lines none ⟨[], [], [], []⟩ b k rec h with h1 | h1
  · cases b <;> simp [invBlock] at h1
  · exact h1

/-- C5 (witness): a one-server listing whose data line has four fields
against the server block's five field names: the record holds four
attributes and is keyed by the first field `srv-1`. -/
theorem inventory_record_keys_and_widths_witness :
    ([("name", "srv-1"), ("idrac_version", "2.30"), ("blade_type", "M"),
        ("gen", "3")] : PyDict).length ≤
        (inventoryFields BlockKind.server).length ∧
      ∃ l ∈ ["<Server>", "srv-1  2.30  M  3"],
        "srv-1" = (reSplit2 (pyStrip l)).headI :=
  inventory_record_keys_and_widths ["<Server>", "srv-1  2.30  M  3"]
    BlockKind.server "srv-1"
    [("name", "srv-1"), ("idrac_version", "2.30"), ("blade_type", "M"),
      ("gen", "3")] (by decide)

/-! ## `list_slotnames`: the fixed-column slot parser (claim C6)

Source lines 840-889.  `l.split()` with no argument (split on whitespace
runs, dropping empty pieces) is `pyWords`; `fields[0]` on an all-whitespace
line raises `IndexError`, hence `Option`. -/

/-- Helper for `pyWords`, on character lists. -/
def wordsGo : List Char → List Char → List (List Char)
  | [], cur => if cur.isEmpty then [] else [cur.reverse]
  | c :: rest, cur =>
    if c.isWhitespace then
      if cur.isEmpty then wordsGo rest []
      else cur.reverse :: wordsGo rest []
    else wordsGo rest (c :: cur)

/-- Python `s.split()` with no argument: split on whitespace runs and drop
empty pieces. -/
def pyWords (s : String) : List String :=
  (wordsGo s.data []).map (fun cs => ⟨cs⟩)

/-- The record built for one slot line (source lines 878-887): key `slot`
from the first token, `slotname` from the second token if present (else
empty), `hostname` from the third token if present (else empty). -/
def slotRecord (f0 : String) (fs : List String) : PyDict :=
  let r0 := updD ([] : PyDict) "slot" f0
  let r1 := updD r0 "slotname" (match fs with | n :: _ => n | [] => "")
  updD r1 "hostname" (match fs with | _ :: h :: _ => h | _ => "")

/-- The line loop of `list_slotnames` (source lines 870-887), carrying the
`stripheader` flag. -/
def list_slotnames_go : List String → Bool → List (String × PyDict) →
    Option (List (String × PyDict))
  | [], _, slots => some slots
  | l :: rest, stripheader, slots =>
    if pyStartsWith l "<" = true then list_slotnames_go rest false slots
    else if stripheader = true then list_slotnames_go rest stripheader slots
    else
      match pyWords l with
      | [] => none
      | f0 :: fs =>
        list_slotnames_go rest stripheader (updD slots f0 (slotRecord f0 fs))

/-- Function `list_slotnames` (source lines 840-889) on the cleaned output lines. -/
def list_slotnames (lines : List String) : Option (List (String × PyDict)) :=
  list_slotnames_go lines true []

/-- Reference following claim C6's words: skip all lines up to and
including the FIRST line starting with `<`, then build one record from
EVERY subsequent line. -/
def claimSlotsRef_go : List String → List (String × PyDict) →
    Option (List (String × PyDict))
  | [], slots => some slots
  | l :: rest, slots =>
    match pyWords l with
    | [] => none
    | f0 :: fs => claimSlotsRef_go rest (updD slots f0 (slotRecord f0 fs))

/-- Reference following claim C6's words (see `claimSlotsRef_go`). -/
def claimSlotsRef (lines : List String) : Option (List (String × PyDict)) :=
  claimSlotsRef_go ((lines.dropWhile (fun l => !pyStartsWith l "<")).tail) []

/-- Amended reference: skip all lines up to and including the first line
starting with `<` AND every later line starting with `<`; build one record
from each remaining line. -/
def amendedSlotsRef_go : List String → List (String × PyDict) →
    Option (List (String × PyDict))
  | [], slots => some slots
  | l :: rest, slots =>
    if pyStartsWith l "<" = true then amendedSlotsRef_go rest slots
    else
      match pyWords l with
      | [] => none
      | f0 :: fs => amendedSlotsRef_go rest (updD slots f0 (slotRecord f0 fs))

/-- Amended reference for claim C6 (see `amendedSlotsRef_go`). -/
def amendedSlotsRef (lines : List String) :
    Option (List (String × PyDict)) :=
  amendedSlotsRef_go ((lines.dropWhile (fun l => !pyStartsWith l "<")).tail) []

/-- C6 (counterexample): `list_slotnames` does NOT build a record from every
line after the first `<` header: a later line that itself starts with `<` is
skipped by the `if l.startswith('<')` test, while the claim's reading
(skip only up to and including the first `<` line) would key a record by
`<a>`. -/
theorem list_slotnames_skips_every_bracket_line :
    list_slotnames ["<h>", "<a> b"] = some [] ∧
      claimSlotsRef ["<h>", "<a> b"] =
        some [("<a>",
          [("slot", "<a>"), ("slotname", "b"), ("hostname", "")])] := by
  decide

theorem list_slotnames_go_false (lines : List String) :
    ∀ slots, list_slotnames_go lines false slots =
      amendedSlotsRef_go lines slots := by
  induction lines with
  | nil =>
    intro slots
    rfl
  | cons l rest ih =>
    intro slots
    simp only [list_slotnames_go, amendedSlotsRef_go]
    by_cases h : pyStartsWith l "<" = true
    · rw [if_pos h, if_pos h]
      exact ih slots
    · rw [if_neg h, if_neg h, if_neg (show ¬(false = true) by simp)]
      cases pyWords l with
      | nil => rfl
      | cons f0 fs => exact ih _

/-- C6 (amended): `list_slotnames` skips all lines up to and including the
first line starting with `<` and also skips every later line starting with
`<`; from each remaining line it builds a record keyed by the first
whitespace token, with the slot name from the second token if present (else
the empty string) and the hostname from the third token if present (else
the empty string); a header followed by no data lines yields the empty
mapping. -/
theorem list_slotnames_matches_amended_reference (lines : List String) :
    list_slotnames lines = amendedSlotsRef lines ∧
      list_slotnames ["<c>"] = some [] := by
  refine ⟨?_, by decide⟩
  unfold list_slotnames amendedSlotsRef
  induction lines with
  | nil => rfl
  | cons l rest ih =>
    simp only [list_slotnames_go]
    by_cases h : pyStartsWith l "<" = true
    · rw [if_pos h]
      have hd : (l :: rest).dropWhile (fun x => !pyStartsWith x "<") =
          l :: rest := by
        rw [List.dropWhile_cons]
        simp [h]
      rw [hd]
      simp only [List.tail_cons]
      exact list_slotnames_go_false rest []
    · rw [if_neg h, if_pos trivial]
      have hd : (l :: rest).dropWhile (fun x => !pyStartsWith x "<") =
          rest.dropWhile (fun x => !pyStartsWith x "<") := by
        rw [List.dropWhile_cons]
        simp [h]
      rw [hd]
      exact ih

/-! ## `create_user`, `delete_user`, `change_password`, `server_pxe`
(claims C7, C8, C9)

The boolean-level executor (`__execute_cmd` composed with the command
runner; its boolean behaviour is settled under claim C3) is abstracted as
an oracle `exec : String → Bool`; traced variants also record the sequence
of issued commands.  The result of `list_users()` is passed in as an
association list from username to the user record's `'index'` value. -/

/-- Run one command through the boolean executor, appending it to the
trace. -/
def runCmdT (exec : String → Bool) (tr : List String) (c : String) :
    Bool × List String :=
  (exec c, tr ++ [c])

/-- The `cfgUserAdminUserName` creation command of `create_user`
(source lines 524-528). -/
def createUserNameCmd (uid : Nat) (username : String) : String :=
  s!"config -g cfgUserAdmin -o cfgUserAdminUserName -i {uid} {username}"

/-- The password command of `change_password` (source lines 427-431). -/
def changePasswordCmd (uid : Nat) (password : String) : String :=
  s!"config -g cfgUserAdmin -o cfgUserAdminPassword -i {uid} {password}"

/-- The enable command of `create_user` (source lines 545-546). -/
def enableUserCmd (uid : Nat) : String :=
  s!"config -g cfgUserAdmin -o cfgUserAdminEnable -i {uid} 1"

/-- The deletion command of `delete_user` (source lines 390-393). -/
def deleteUserCmd (uid : Nat) : String :=
  s!"config -g cfgUserAdmin -o cfgUserAdminUserName -i {uid} \"\""

/-- Function `delete_user` with an explicit nonzero uid (source lines 389-397),
traced: `if uid:` issue the deletion command, else log and return
`False`. -/
def delete_userT (exec : String → Bool) (tr : List String) (uid : Nat) :
    Bool × List String :=
  if uid ≠ 0 then runCmdT exec tr (deleteUserCmd uid)
  else (false, tr)

/-- Function `delete_user` (source lines 370-397): when `uid` is `None` the username
is resolved through the `list_users()` result (`user[username]['index']`,
raising `KeyError` on a miss, hence `Option`). -/
def delete_user (exec : String → Bool) (users : List (String × Nat))
    (username : String) (uid? : Option Nat) : Option Bool :=
  match uid? with
  | none =>
    match getKeyD users username with
    | none => none
    | some u => some (if u ≠ 0 then exec (deleteUserCmd u) else false)
  | some u => some (if u ≠ 0 then exec (deleteUserCmd u) else false)

/-- Function `change_password` (source lines 400-434), analogous to
`delete_user`. -/
def change_password (exec : String → Bool) (users : List (String × Nat))
    (username password : String) (uid? : Option Nat) : Option Bool :=
  match uid? with
  | none =>
    match getKeyD users username with
    | none => none
    | some u =>
      some (if u ≠ 0 then exec (changePasswordCmd u password) else false)
  | some u =>
    some (if u ≠ 0 then exec (changePasswordCmd u password) else false)

/-- Function `create_user` (source lines 485-550) with the `users` listing supplied,
returning the result and the trace of issued commands; `none` = the
allocation `.pop()` raised on an empty free list. -/
def create_user (exec : String → Bool) (users : List (String × Nat))
    (username password permissions : String) :
    Option (Bool × List String) :=
  if hasKeyD users username = true then some (false, [])
  else
    match allocUid (users.map Prod.snd) with
    | none => none
    | some uid =>
      let t1 := runCmdT exec [] (createUserNameCmd uid username)
      if t1.1 = false then some (false, (delete_userT exec t1.2 uid).2)
      else
        let t2 := runCmdT exec t1.2 (setPermissionsCmd uid permissions)
        if t2.1 = false then some (false, (delete_userT exec t2.2 uid).2)
        else
          let t3 := runCmdT exec t2.2 (changePasswordCmd uid password)
          if t3.1 = false then some (false, (delete_userT exec t3.2 uid).2)
          else
            let t4 := runCmdT exec t3.2 (enableUserCmd uid)
            if t4.1 = false then some (false, (delete_userT exec t4.2 uid).2)
            else some (true, t4.2)

theorem allocUid_ne_zero (used : List Nat) (u : Nat)
    (h : allocUid used = some u) : u ≠ 0 := by
  have hs := sortDesc_sorted (freeUids used)
  rcases getLast?_sorted_min _ u hs h with ⟨hmem, -⟩
  have hmem2 := (sortDesc_perm (freeUids used)).mem_iff.mp hmem
  unfold freeUids at hmem2
  rcases List.mem_filter.mp hmem2 with ⟨hr, -⟩
  have hexp : List.range' 2 10 = [2, 3, 4, 5, 6, 7, 8, 9, 10, 11] := rfl
  rw [hexp] at hr
  simp at hr
  omega

/-- C7: whenever `create_user` reaches its four steps (fresh username, free
index available), it returns `True` exactly when creating the user name,
setting permissions, setting the password and enabling the user all
succeed; on any step failure it issues the rollback deletion of the
allocated index and returns `False`. -/
theorem create_user_rolls_back_on_failure (exec : String → Bool)
    (users : List (String × Nat)) (username password permissions : String)
    (uid : Nat)
    (hfresh : hasKeyD users username = false)
    (halloc : allocUid (users.map Prod.snd) = some uid) :
    ∃ r tr, create_user exec users username password permissions =
        some (r, tr) ∧
      (r = true ↔ (exec (createUserNameCmd uid username) = true ∧
        exec (setPermissionsCmd uid permissions) = true ∧
        exec (changePasswordCmd uid password) = true ∧
        exec (enableUserCmd uid) = true)) ∧
      (r = false → deleteUserCmd uid ∈ tr) := by
  have huid : uid ≠ 0 := allocUid_ne_zero _ uid halloc
  cases h1 : exec (createUserNameCmd uid username) with
  | false =>
    refine ⟨false, [createUserNameCmd uid username, deleteUserCmd uid],
      ?_, by simp [h1], by simp⟩
    simp [create_user, hfresh, halloc, runCmdT, delete_userT, huid, h1]
  | true =>
    cases h2 : exec (setPermissionsCmd uid permissions) with
    | false =>
      refine ⟨false, [createUserNameCmd uid username,
        setPermissionsCmd uid permissions, deleteUserCmd uid],
        ?_, by simp [h2], by simp⟩
      simp [create_user, hfresh, halloc, runCmdT, delete_userT, huid, h1, h2]
    | true =>
      cases h3 : exec (changePasswordCmd uid password) with
      | false =>
        refine ⟨false, [createUserNameCmd uid username,
          setPermissionsCmd uid permissions, changePasswordCmd uid password,
          deleteUserCmd uid],
          ?_, by simp [h3], by simp⟩
        simp [create_user, hfresh, halloc, runCmdT, delete_userT, huid,
          h1, h2, h3]
      | true =>
        cases h4 : exec (enableUserCmd uid) with
        | false =>
          refine ⟨false, [createUserNameCmd uid username,
            setPermissionsCmd uid permissions,
            changePasswordCmd uid password, enableUserCmd uid,
            deleteUserCmd uid],
            ?_, by simp [h4], by simp⟩
          simp [create_user, hfresh, halloc, runCmdT, delete_userT, huid,
            h1, h2, h3, h4]
        | true =>
          refine ⟨true, [createUserNameCmd uid username,
            setPermissionsCmd uid permissions,
            changePasswordCmd uid password, enableUserCmd uid],
            ?_, by simp [h1, h2, h3, h4], by simp⟩
          simp [create_user, hfresh, halloc, runCmdT, delete_userT, huid,
            h1, h2, h3, h4]

/-- C7 (witness): with an all-failing executor, a fresh username and an
empty listing (allocated index 2), the instantiated conclusion. -/
theorem create_user_rolls_back_on_failure_witness :
    ∃ r tr, create_user (fun _ => false) [] "diana" "secret" "login" =
        some (r, tr) ∧
      (r = true ↔ ((fun _ => false : String → Bool)
          (createUserNameCmd 2 "diana") = true ∧
        (fun _ => false : String → Bool) (setPermissionsCmd 2 "login")
          = true ∧
        (fun _ => false : String → Bool) (changePasswordCmd 2 "secret")
          = true ∧
        (fun _ => false : String → Bool) (enableUserCmd 2) = true)) ∧
      (r = false → deleteUserCmd 2 ∈ tr) :=
  create_user_rolls_back_on_failure (fun _ => false) [] "diana" "secret"
    "login" 2 (by decide) (by decide)

/-- C8: with `uid` unspecified and a username absent from the user listing,
both `delete_user` and `change_password` fault in the unguarded
`user[username]['index']` lookup (the missing-key `none`) instead of
returning an explicit not-found result. -/
theorem unguarded_username_lookup_faults (exec : String → Bool)
    (users : List (String × Nat)) (username password : String)
    (h : getKeyD users username = none) :
    delete_user exec users username none = none ∧
      change_password exec users username password none = none := by
  unfold delete_user change_password
  rw [h]
  exact ⟨rfl, rfl⟩

/-- C8 (witness): the lookup fault on the absent username `ghost` against a
listing holding only `root`. -/
theorem unguarded_username_lookup_faults_witness :
    delete_user (fun _ => true) [("root", 1)] "ghost" none = none ∧
      change_password (fun _ => true) [("root", 1)] "ghost" "secret" none =
        none :=
  unguarded_username_lookup_faults (fun _ => true) [("root", 1)] "ghost"
    "secret" (by decide)

/-- The first-boot-device configuration command of `server_pxe`
(source line 825). -/
def pxeFirstBootCmd : String :=
  "config -g cfgServerInfo -o cfgServerFirstBootDevice PXE"

/-- The boot-once configuration command of `server_pxe`
(source line 828). -/
def pxeBootOnceCmd : String :=
  "config -g cfgServerInfo -o cfgServerBootOnce 1"

/-- The command `server_reboot` would issue if it were called. -/
def serverRebootCmd : String := "serveraction powercycle"

/-- The value returned by `server_pxe`: on the success path the Python
function returns the function object `server_reboot` itself (without
calling it); otherwise the boolean `False`. -/
inductive PxeReturn
  | rebootFunction
  | value (b : Bool)

/-- Function `server_pxe` (source lines 813-837), traced. -/
def server_pxe (exec : String → Bool) : PxeReturn × List String :=
  let t1 := runCmdT exec [] pxeFirstBootCmd
  if t1.1 = true then
    let t2 := runCmdT exec t1.2 pxeBootOnceCmd
    if t2.1 = true then (PxeReturn.rebootFunction, t2.2)
    else (PxeReturn.value false, t2.2)
  else (PxeReturn.value false, t1.2)

/-- C9: when both configuration commands succeed, `server_pxe` returns the
`server_reboot` function reference itself — the reboot command is never
issued — and when either command fails it returns the boolean `False`. -/
theorem server_pxe_returns_function_reference (exec : String → Bool) :
    ((exec pxeFirstBootCmd = true ∧ exec pxeBootOnceCmd = true) →
      (server_pxe exec).1 = PxeReturn.rebootFunction ∧
        serverRebootCmd ∉ (server_pxe exec).2) ∧
    (¬(exec pxeFirstBootCmd = true ∧ exec pxeBootOnceCmd = true) →
      (server_pxe exec).1 = PxeReturn.value false) := by
  constructor
  · rintro ⟨h1, h2⟩
    constructor
    · simp [server_pxe, runCmdT, h1, h2]
    · simp only [server_pxe, runCmdT, h1, h2, if_pos]
      decide
  · intro h
    cases h1 : exec pxeFirstBootCmd with
    | false => simp [server_pxe, runCmdT, h1]
    | true =>
      cases h2 : exec pxeBootOnceCmd with
      | false => simp [server_pxe, runCmdT, h1, h2]
      | true => exact absurd ⟨h1, h2⟩ h

/-- C9 (witness): with an executor succeeding on both configuration
commands, `server_pxe` yields the function reference and never issues the
reboot command. -/
theorem server_pxe_returns_function_reference_witness :
    (server_pxe (fun _ => true)).1 = PxeReturn.rebootFunction ∧
      serverRebootCmd ∉ (server_pxe (fun _ => true)).2 :=
  (server_pxe_returns_function_reference (fun _ => true)).1 ⟨rfl, rfl⟩
